import Mathlib

/-!
A verification development for the `plate` query-construction engine.

The Go sources are shallowly embedded: the memefish AST node types used by
the engine become a family of mutual inductives, the mutable build context
(`types.State`) becomes a record threaded functionally, and each Go closure
of type `func(*State, *ast.Expr)` (resp. `func(*State, *ast.Query)`)
becomes a Lean function `State → Expr → State × Expr`
(resp. `State → QueryA → State × QueryA`).  Parameter values (`[]any` in
Go) are modelled as strings, which is the only value type exercised by the
generated example modules; genericity over the value type is purely
compile-time in the source.
-/

namespace Plate

/-- Parameter values accumulated in the build context (`[]any` in Go;
all example columns carry string values). -/
abbrev Value := String

/-- Binary operators of the AST library used by the engine
(memefish `ast.BinaryOp`). -/
inductive BinOp where
  | eq | ne | lt | gt | le | ge | like | notLike | and | or
  deriving DecidableEq, Repr

/-- Join kinds used by the engine (memefish `ast.JoinOp`). -/
inductive JoinOp where
  | innerJoin | leftOuterJoin
  deriving DecidableEq, Repr

/-- Order directions (memefish `ast.Direction`). -/
inductive Direction where
  | asc | desc
  deriving DecidableEq, Repr

mutual

/-- Embedding of the memefish expression nodes the engine constructs.
`null` stands for Go's `nil` value of the `ast.Expr` interface (the
initial value of `var expr ast.Expr`). -/
inductive Expr where
  | null
  | binary (op : BinOp) (l r : Expr)
  | paren (e : Expr)
  | unaryNot (e : Expr)
  | path (idents : List String)
  | param (name : String)
  | betweenE (l lo hi : Expr)
  | inE (l : Expr) (vals : List Expr)
  | isNullE (neg : Bool) (l : Expr)
  | intLit (v : String)
  | existsQ (q : QueryA)

/-- Embedding of memefish `ast.TableExpr`: a table name with optional
`AS` alias, or a join node carrying its `ON` condition. -/
inductive TableExpr where
  | tableName (name : String) (asAlias : Option String)
  | joinE (op : JoinOp) (l r : TableExpr) (cond : Expr)

/-- Embedding of memefish select items (`Star`, `DotStar`,
`ExprSelectItem`, `Alias`). -/
inductive SelectItem where
  | star
  | dotStar (e : Expr)
  | exprItem (e : Expr)
  | aliasItem (e : Expr) (al : String)

/-- Embedding of memefish `ast.Select` restricted to the fields the
engine reads or writes (`Results`, `From.Source`, `Where`). -/
inductive SelectS where
  | mk (results : List SelectItem) (fromSource : TableExpr) (whereExpr : Option Expr)

/-- Embedding of memefish `ast.OrderByItem`. -/
inductive OrderByItem where
  | mk (e : Expr) (dir : Direction)

/-- Embedding of memefish `ast.Query` (`Query` body, `OrderBy`,
`Limit`); the engine only ever stores a `Select` in the body. -/
inductive QueryA where
  | mk (query : SelectS) (orderBy : List OrderByItem) (limit : Option String)

end

/-- Result-item list of a select. -/
def SelectS.results : SelectS → List SelectItem
  | .mk rs _ _ => rs

/-- FROM source of a select. -/
def SelectS.fromSource : SelectS → TableExpr
  | .mk _ f _ => f

/-- WHERE expression of a select (`none` when the Go `Where` pointer is
nil). -/
def SelectS.whereExpr : SelectS → Option Expr
  | .mk _ _ w => w

/-- The select body of a query. -/
def QueryA.query : QueryA → SelectS
  | .mk q _ _ => q

/-- ORDER BY items of a query. -/
def QueryA.orderBy : QueryA → List OrderByItem
  | .mk _ o _ => o

/-- LIMIT literal of a query. -/
def QueryA.limit : QueryA → Option String
  | .mk _ _ l => l

/-- A pending subquery projection (`types.SubqueryColumn`). -/
structure SubqueryColumn where
  alias_ : String
  subquery : Expr

/-- The per-query build context, embedding `types.State`.  The Go
`Tables map[string]struct{}` is modelled as the list of registered
aliases (only membership is ever consulted). -/
structure State where
  Tables : List String
  Params : List Value
  RelationshipPath : List String
  SubqueryColumns : List SubqueryColumn

/-- Register an alias in the tables set (`s.Tables[alias] = struct{}{}`). -/
def addTable (ts : List String) (a : String) : List String :=
  if a ∈ ts then ts else ts ++ [a]

/-- `State.CurrentAlias`: the alias derived from the relationship path —
root table when the path is a singleton, otherwise the underscore-joined
tail of the path. -/
def currentAliasOf : List String → String
  | [] => ""
  | [x] => x
  | _ :: tail => String.intercalate "_" tail

/-- `State.CurrentAlias` on a state. -/
def State.CurrentAlias (s : State) : String :=
  currentAliasOf s.RelationshipPath

/-- `State.registerRelationship`: push the relationship name onto the
path, derive the alias with `CurrentAlias`, and register it. -/
def State.registerRelationship (s : State) (relationshipName : String) :
    State × String :=
  let s1 := { s with RelationshipPath := s.RelationshipPath ++ [relationshipName] }
  let al := s1.CurrentAlias
  ({ s1 with Tables := addTable s1.Tables al }, al)

/-- `State.RegisterJunction`: derive a junction alias from the current
alias without advancing the path, and register it. -/
def State.RegisterJunction (s : State) (tableName : String) : State × String :=
  let currentAlias := s.CurrentAlias
  let al := if currentAlias ≠ "" then currentAlias ++ "_" ++ tableName else tableName
  ({ s with Tables := addTable s.Tables al }, al)

/-- `State.WithRelationship`, generalised over the result the scoped
function threads alongside the state (a Go closure may mutate captured
variables such as the query under construction; the extra component
carries them). -/
def State.withRelationshipG {α : Type} (s : State) (relationshipName : String)
    (fn : String → State → State × α) : State × α :=
  let basePath := s.RelationshipPath
  let (s1, al) := s.registerRelationship relationshipName
  let (s2, a) := fn al s1
  ({ s2 with RelationshipPath := basePath }, a)

/-- `State.WithRelationship` with the literal Go signature
(`fn func(alias string)` mutating only the state). -/
def State.WithRelationship (s : State) (relationshipName : String)
    (fn : String → State → State) : State :=
  (s.withRelationshipG relationshipName (fun a s1 => (fn a s1, ()))).1

/-- `types.ExprOption`: a closure receiving the state and the expression
slot it writes (`func(*State, *ast.Expr)`). -/
abbrev ExprOption := State → Expr → State × Expr

/-- `types.QueryOption` (`func(*State, *ast.Query)`). -/
abbrev QueryOption := State → QueryA → State × QueryA

/-- The `types.Option` interface: anything that can be applied to the
state and query.  `QueryOption.Apply` is the identity embedding. -/
abbrev OptionT := State → QueryA → State × QueryA

/-- `ExprOption.Apply`: ensure a `Where` node exists, build the option's
expression into a fresh slot, then install it — combining with an
existing WHERE expression using `AND`. -/
def ExprOption.apply (opt : ExprOption) : OptionT := fun s q =>
  let sl := q.query
  let w := sl.whereExpr.getD Expr.null
  let (s1, expr) := opt s Expr.null
  let w' : Expr :=
    match w with
    | .null => expr
    | _ => .binary .and w expr
  (s1, .mk (.mk sl.results sl.fromSource (some w')) q.orderBy q.limit)

/-- `types.Column`: the runtime payload is just the column name (the
table/value type parameters are compile-time phantom tags). -/
structure Column where
  Name : String

/-- `Column.Op`: append the literal value to the parameter list and
build `currentAlias.col <op> @p<index>` where the index is the
parameter's position at append time. -/
def Column.Op (c : Column) (op : BinOp) (value : Value) : ExprOption :=
  fun s _ =>
    let i := s.Params.length
    let s1 := { s with Params := s.Params ++ [value] }
    (s1, .binary op (.path [s1.CurrentAlias, c.Name]) (.param ("p" ++ toString i)))

/-- `Column.Eq`. -/
def Column.Eq (c : Column) (value : Value) : ExprOption := c.Op .eq value

/-- `Column.Ne`. -/
def Column.Ne (c : Column) (value : Value) : ExprOption := c.Op .ne value

/-- `Column.Lt`. -/
def Column.Lt (c : Column) (value : Value) : ExprOption := c.Op .lt value

/-- `Column.Gt`. -/
def Column.Gt (c : Column) (value : Value) : ExprOption := c.Op .gt value

/-- `Column.Le`. -/
def Column.Le (c : Column) (value : Value) : ExprOption := c.Op .le value

/-- `Column.Ge`. -/
def Column.Ge (c : Column) (value : Value) : ExprOption := c.Op .ge value

/-- `Column.Like` (string columns). -/
def Column.Like (c : Column) (value : Value) : ExprOption := c.Op .like value

/-- `Column.NotLike` (string columns). -/
def Column.NotLike (c : Column) (value : Value) : ExprOption := c.Op .notLike value

/-- `Column.Between`: append `min` then `max`, consuming two
consecutive parameter indices. -/
def Column.Between (c : Column) (min max : Value) : ExprOption :=
  fun s _ =>
    let minIdx := s.Params.length
    let s1 := { s with Params := s.Params ++ [min] }
    let maxIdx := s1.Params.length
    let s2 := { s1 with Params := s1.Params ++ [max] }
    (s2, .betweenE (.path [s2.CurrentAlias, c.Name])
      (.param ("p" ++ toString minIdx)) (.param ("p" ++ toString maxIdx)))

/-- `Column.In`: append each value in order, consuming consecutive
parameter indices. -/
def Column.In (c : Column) (values : List Value) : ExprOption :=
  fun s _ =>
    let (s1, exprs) := values.foldl
      (fun (acc : State × List Expr) value =>
        let i := acc.1.Params.length
        ({ acc.1 with Params := acc.1.Params ++ [value] },
         acc.2 ++ [Expr.param ("p" ++ toString i)]))
      (s, [])
    (s1, .inE (.path [s1.CurrentAlias, c.Name]) exprs)

/-- `Column.IsNull`. -/
def Column.IsNull (c : Column) : ExprOption :=
  fun s _ => (s, .isNullE false (.path [s.CurrentAlias, c.Name]))

/-- `Column.IsNotNull`. -/
def Column.IsNotNull (c : Column) : ExprOption :=
  fun s _ => (s, .isNullE true (.path [s.CurrentAlias, c.Name]))

/-- One iteration of `query.logicalOp`'s loop: build the next
sub-expression into a fresh slot and parenthesize the pairwise
combination with the accumulator. -/
def logicalStep (op : BinOp) (p : State × Expr) (oi : ExprOption) : State × Expr :=
  let (si, right) := oi p.1 Expr.null
  (si, .paren (.binary op p.2 right))

/-- `query.logicalOp`: build the first sub-expression, then fold the
remaining ones in pairwise, left-associative fashion, wrapping each
intermediate combination in parentheses.  An empty operand list leaves
the expression slot untouched. -/
def logicalOp (op : BinOp) (opts : List ExprOption) : ExprOption :=
  fun s e0 =>
    match opts with
    | [] => (s, e0)
    | o :: rest =>
      let (s1, left) := o s Expr.null
      rest.foldl (logicalStep op) (s1, left)

/-- `query.And`. -/
def And (opts : List ExprOption) : ExprOption := logicalOp .and opts

/-- `query.Or`. -/
def Or (opts : List ExprOption) : ExprOption := logicalOp .or opts

/-- `query.Not`: build the inner expression in place, then wrap it in a
unary negation — re-using the inner parentheses when present and adding
a layer otherwise. -/
def Not (opt : ExprOption) : ExprOption :=
  fun s e0 =>
    let (s1, inner) := opt s e0
    match inner with
    | .paren _ => (s1, .unaryNot inner)
    | _ => (s1, .unaryNot (.paren inner))

/-- `query.KeyPair`. -/
structure KeyPair where
  From : String
  To : String

/-- `query.joinConfig`. -/
structure JoinConfig where
  Source : TableExpr
  BaseTable : String
  TargetTable : String
  TargetAlias : String
  Keys : KeyPair
  JoinType : JoinOp

/-- `query.join`: one join node — previous source on the left, aliased
target table on the right, equality of the two key paths as the `ON`
condition. -/
def join (config : JoinConfig) : TableExpr :=
  .joinE config.JoinType config.Source
    (.tableName config.TargetTable (some config.TargetAlias))
    (.binary .eq (.path [config.BaseTable, config.Keys.From])
      (.path [config.TargetAlias, config.Keys.To]))

/-- `query.joinThroughConfig`. -/
structure JoinThroughConfig where
  Source : TableExpr
  BaseTable : String
  JunctionTable : String
  JunctionAlias : String
  TargetTable : String
  TargetAlias : String
  BaseToJunction : KeyPair
  JunctionToTarget : KeyPair
  JoinType : JoinOp

/-- `query.joinThrough`: chain base→junction then junction→target. -/
def joinThrough (config : JoinThroughConfig) : TableExpr :=
  let junctionJoin := join
    { Source := config.Source
      BaseTable := config.BaseTable
      TargetTable := config.JunctionTable
      TargetAlias := config.JunctionAlias
      Keys := config.BaseToJunction
      JoinType := config.JoinType }
  join
    { Source := junctionJoin
      BaseTable := config.JunctionAlias
      TargetTable := config.TargetTable
      TargetAlias := config.TargetAlias
      Keys := config.JunctionToTarget
      JoinType := config.JoinType }

/-- `query.findLastJoin` as a predicate: whether the source contains a
join node at all (the Go function returns nil exactly on non-join
sources, and otherwise the join found by recursing into right
children). -/
def hasJoin : TableExpr → Bool
  | .joinE .. => true
  | .tableName .. => false

/-- The in-place mutation performed through `findLastJoin`'s result:
recurse into right children while they hold joins, and flip the final
join's kind to `INNER`. -/
def setLastJoinInner : TableExpr → TableExpr
  | .tableName n a => .tableName n a
  | .joinE op l r cond =>
    if hasJoin r then .joinE op l (setLastJoinInner r) cond
    else .joinE .innerJoin l r cond

/-- `query.WithInnerJoinOption`: when the FROM source contains a join,
flip the most recently added join to `INNER`; otherwise leave query and
state untouched. -/
def WithInnerJoinOption : QueryOption := fun s q =>
  if hasJoin q.query.fromSource then
    (s, .mk (.mk q.query.results (setLastJoinInner q.query.fromSource)
      q.query.whereExpr) q.orderBy q.limit)
  else (s, q)

/-- `query.OrderBy`: append an order item on the current alias. -/
def OrderBy (column : Column) (dir : Direction) : QueryOption := fun s q =>
  (s, .mk q.query (q.orderBy ++ [.mk (.path [s.CurrentAlias, column.Name]) dir])
    q.limit)

/-- `query.Limit`: install an integer-literal limit. -/
def Limit (count : Int) : QueryOption := fun s q =>
  (s, .mk q.query q.orderBy (some (toString count)))

/-- Apply a list of options in order, threading state and query
(the `for _, opt := range opts { opt.Apply(s, q) }` loops). -/
def applyOpts (opts : List OptionT) (s : State) (q : QueryA) : State × QueryA :=
  opts.foldl (fun p o => o p.1 p.2) (s, q)

/-- `query.DirectJoin`: read the base alias, open a relationship scope,
replace the FROM source with one new join node, and apply the nested
options inside the scope. -/
def DirectJoin (relationshipName targetTable : String) (keys : KeyPair)
    (joinType : JoinOp) (opts : List OptionT) : QueryOption := fun s q =>
  let baseAlias := s.CurrentAlias
  s.withRelationshipG relationshipName (fun al s1 =>
    let q1 : QueryA := .mk
      (.mk q.query.results
        (join
          { Source := q.query.fromSource
            BaseTable := baseAlias
            TargetTable := targetTable
            TargetAlias := al
            Keys := keys
            JoinType := joinType })
        q.query.whereExpr)
      q.orderBy q.limit
    applyOpts opts s1 q1)

/-- `query.JunctionJoin`: allocate the junction alias (no path push),
open the relationship scope at the target alias, replace the FROM
source with the two chained join nodes, and apply the nested options
inside the scope. -/
def JunctionJoin (relationshipName junctionTable : String)
    (baseToJunction : KeyPair) (targetTable : String)
    (junctionToTarget : KeyPair) (joinType : JoinOp)
    (opts : List OptionT) : QueryOption := fun s q =>
  let baseAlias := s.CurrentAlias
  let (s', junctionAlias) := s.RegisterJunction junctionTable
  s'.withRelationshipG relationshipName (fun targetAlias s1 =>
    let q1 : QueryA := .mk
      (.mk q.query.results
        (joinThrough
          { Source := q.query.fromSource
            BaseTable := baseAlias
            JunctionTable := junctionTable
            JunctionAlias := junctionAlias
            TargetTable := targetTable
            TargetAlias := targetAlias
            BaseToJunction := baseToJunction
            JunctionToTarget := junctionToTarget
            JoinType := joinType })
        q.query.whereExpr)
      q.orderBy q.limit
    applyOpts opts s1 q1)

/-- `query.WhereExists`: build a correlated `SELECT 1` subquery in an
isolated nested state seeded at the target table (sharing the parent's
parameter list), apply the nested options to it, merge the parameters
back, and emit an EXISTS predicate. -/
def WhereExists (targetTable : String) (keys : KeyPair)
    (junctionTable : String) (junctionKeys : KeyPair)
    (opts : List OptionT) : ExprOption := fun s _ =>
  let baseAlias := s.CurrentAlias
  let subState : State :=
    { Tables := addTable [] targetTable
      Params := s.Params
      RelationshipPath := [targetTable]
      SubqueryColumns := [] }
  let junctionCond : Expr :=
    .binary .eq (.path [junctionTable, keys.To]) (.path [baseAlias, keys.From])
  let whereExpr : Expr :=
    if junctionTable = "" then
      .binary .eq (.path [targetTable, keys.To]) (.path [baseAlias, keys.From])
    else
      .binary .and junctionCond
        (.binary .eq (.path [targetTable, junctionKeys.To])
          (.path [junctionTable, junctionKeys.From]))
  let subQuery : QueryA := .mk
    (.mk [.exprItem (.intLit "1")]
      (.tableName targetTable none)
      (some whereExpr))
    [] none
  let subQuery : QueryA :=
    if junctionTable ≠ "" then
      .mk
        (.mk subQuery.query.results
          (.joinE .innerJoin (.tableName targetTable none)
            (.tableName junctionTable none)
            (.binary .eq (.path [targetTable, junctionKeys.To])
              (.path [junctionTable, junctionKeys.From])))
          (some junctionCond))
        subQuery.orderBy subQuery.limit
    else subQuery
  let (subState, subQuery) := applyOpts opts subState subQuery
  ({ s with Params := subState.Params }, .existsQ subQuery)

/-- `query.Select`, split before serialization: initialize the build
context rooted at the table name, seed the bare `SELECT table.* FROM
table`, apply the options in order, and append the pending subquery
projection columns. -/
def selectQ (tableName : String) (opts : List OptionT) : QueryA × State :=
  let s : State :=
    { Tables := addTable [] tableName
      Params := []
      RelationshipPath := [tableName]
      SubqueryColumns := [] }
  let stmt : SelectS := .mk
    [.dotStar (.path [tableName])]
    (.tableName tableName none)
    none
  let q : QueryA := .mk stmt [] none
  let (s1, q1) := applyOpts opts s q
  (.mk
    (.mk
      (q1.query.results ++
        s1.SubqueryColumns.map (fun col => .aliasItem col.subquery col.alias_))
      q1.query.fromSource q1.query.whereExpr)
    q1.orderBy q1.limit, s1)

/-- Modelled from the spec: the engine delegates text production to the
external AST library's `SQL()` serialization (§6, out of scope of the
repository).  Operator spellings follow the spec's concrete scenarios
and the repository's own expected-output fixtures. -/
def binOpStr : BinOp → String
  | .eq => "="
  | .ne => "!="
  | .lt => "<"
  | .gt => ">"
  | .le => "<="
  | .ge => ">="
  | .like => "LIKE"
  | .notLike => "NOT LIKE"
  | .and => "AND"
  | .or => "OR"

/-- Modelled from the spec: join-kind spellings of the external
serialization. -/
def joinOpStr : JoinOp → String
  | .innerJoin => "INNER JOIN"
  | .leftOuterJoin => "LEFT OUTER JOIN"

/-- Modelled from the spec: order-direction spellings of the external
serialization. -/
def dirStr : Direction → String
  | .asc => "ASC"
  | .desc => "DESC"

mutual

/-- Modelled from the spec: canonical serialization of expressions by
the external AST library (missing from the repository sources). -/
def sqlExpr : Expr → String
  | .null => ""
  | .binary op l r => sqlExpr l ++ " " ++ binOpStr op ++ " " ++ sqlExpr r
  | .paren e => "(" ++ sqlExpr e ++ ")"
  | .unaryNot e => "NOT " ++ sqlExpr e
  | .path ids => String.intercalate "." ids
  | .param n => "@" ++ n
  | .betweenE l lo hi =>
    sqlExpr l ++ " BETWEEN " ++ sqlExpr lo ++ " AND " ++ sqlExpr hi
  | .inE l vals =>
    sqlExpr l ++ " IN (" ++ String.intercalate ", " (sqlExprList vals) ++ ")"
  | .isNullE neg l => sqlExpr l ++ (if neg then " IS NOT NULL" else " IS NULL")
  | .intLit v => v
  | .existsQ q => "EXISTS (" ++ sqlQuery q ++ ")"

/-- Modelled from the spec: serialization of expression lists. -/
def sqlExprList : List Expr → List String
  | [] => []
  | e :: es => sqlExpr e :: sqlExprList es

/-- Modelled from the spec: serialization of table expressions; an
aliased table prints as `name AS alias`, a join as
`left <kind> right ON cond`. -/
def sqlTableExpr : TableExpr → String
  | .tableName n none => n
  | .tableName n (some a) => n ++ " AS " ++ a
  | .joinE op l r cond =>
    sqlTableExpr l ++ " " ++ joinOpStr op ++ " " ++ sqlTableExpr r ++
      " ON " ++ sqlExpr cond

/-- Modelled from the spec: serialization of select items. -/
def sqlSelectItem : SelectItem → String
  | .star => "*"
  | .dotStar e => sqlExpr e ++ ".*"
  | .exprItem e => sqlExpr e
  | .aliasItem e al => sqlExpr e ++ " AS " ++ al

/-- Modelled from the spec: serialization of select-item lists. -/
def sqlItemList : List SelectItem → List String
  | [] => []
  | i :: is => sqlSelectItem i :: sqlItemList is

/-- Modelled from the spec: serialization of a select body. -/
def sqlSelect : SelectS → String
  | .mk results fromSource whereExpr =>
    "SELECT " ++ String.intercalate ", " (sqlItemList results) ++
      " FROM " ++ sqlTableExpr fromSource ++
      (match whereExpr with
       | none => ""
       | some w => " WHERE " ++ sqlExpr w)

/-- Modelled from the spec: serialization of order-by items. -/
def sqlOrderItem : OrderByItem → String
  | .mk e dir => sqlExpr e ++ " " ++ dirStr dir

/-- Modelled from the spec: serialization of order-by item lists. -/
def sqlOrderList : List OrderByItem → List String
  | [] => []
  | i :: is => sqlOrderItem i :: sqlOrderList is

/-- Modelled from the spec: serialization of a whole query. -/
def sqlQuery : QueryA → String
  | .mk sel ob lim =>
    sqlSelect sel ++
      (match ob with
       | [] => ""
       | _ => " ORDER BY " ++ String.intercalate ", " (sqlOrderList ob)) ++
      (match lim with
       | none => ""
       | some v => " LIMIT " ++ v)

end

/-- `query.Select`: build the query (`selectQ`) and return the
serialized text paired with the accumulated parameter list. -/
def Select (tableName : String) (opts : List OptionT) : String × List Value :=
  let (q, s) := selectQ tableName opts
  (sqlQuery q, s.Params)

namespace user

/-- Generated `user.Name` column accessor (table `user`, string column
`name`). -/
def Name : Column := ⟨"name"⟩

/-- Generated `user.ID` column accessor. -/
def ID : Column := ⟨"id"⟩

/-- Generated `user.Email` column accessor. -/
def Email : Column := ⟨"email"⟩

end user

namespace tag

/-- Generated `tag.Name` column accessor (table `tag`, string column
`name`). -/
def Name : Column := ⟨"name"⟩

/-- Generated `tag.ID` column accessor. -/
def ID : Column := ⟨"id"⟩

end tag

namespace post

/-- Generated `post.Title` column accessor. -/
def Title : Column := ⟨"title"⟩

/-- Generated `post.Author`: belongs-to join onto `user`. -/
def Author (opts : List OptionT) : QueryOption :=
  DirectJoin "author" "user" ⟨"user_id", "id"⟩ .innerJoin opts

/-- Generated `post.Tags`: many-to-many join onto `tag` through the
`post_tag` junction table. -/
def Tags (opts : List OptionT) : QueryOption :=
  JunctionJoin "tags" "post_tag" ⟨"id", "post_id"⟩ "tag" ⟨"tag_id", "id"⟩
    .leftOuterJoin opts

end post

/-! ### Measurement functions used by the specification statements -/

/-- Number of `AND` connectives on the conjunction spine of an
expression (the connectives of a WHERE clause). -/
def countAnd : Expr → Nat
  | .binary .and l r => countAnd l + countAnd r + 1
  | _ => 0

/-- The conjuncts of an expression, left to right. -/
def andLeaves : Expr → List Expr
  | .binary .and l r => andLeaves l ++ andLeaves r
  | e => [e]

/-- The effective name of each FROM-clause member, left to right: its
alias when one is set, its table name otherwise. -/
def fromAliases : TableExpr → List String
  | .tableName n a => [a.getD n]
  | .joinE _ l r _ => fromAliases l ++ fromAliases r

mutual

/-- All positional-parameter names referenced by an expression, in
construction order. -/
def placeholders : Expr → List String
  | .null => []
  | .binary _ l r => placeholders l ++ placeholders r
  | .paren e => placeholders e
  | .unaryNot e => placeholders e
  | .path _ => []
  | .param n => [n]
  | .betweenE l lo hi => placeholders l ++ placeholders lo ++ placeholders hi
  | .inE l vals => placeholders l ++ placeholdersL vals
  | .isNullE _ l => placeholders l
  | .intLit _ => []
  | .existsQ q => placeholdersQ q

/-- Placeholders of an expression list. -/
def placeholdersL : List Expr → List String
  | [] => []
  | e :: es => placeholders e ++ placeholdersL es

/-- Placeholders referenced in a FROM source (join conditions). -/
def placeholdersT : TableExpr → List String
  | .tableName _ _ => []
  | .joinE _ l r cond => placeholdersT l ++ placeholdersT r ++ placeholders cond

/-- Placeholders of a select item. -/
def placeholdersI : SelectItem → List String
  | .star => []
  | .dotStar e => placeholders e
  | .exprItem e => placeholders e
  | .aliasItem e _ => placeholders e

/-- Placeholders of a select-item list. -/
def placeholdersIL : List SelectItem → List String
  | [] => []
  | i :: is => placeholdersI i ++ placeholdersIL is

/-- Placeholders of an order-by item. -/
def placeholdersO : OrderByItem → List String
  | .mk e _ => placeholders e

/-- Placeholders of an order-by list. -/
def placeholdersOL : List OrderByItem → List String
  | [] => []
  | i :: is => placeholdersO i ++ placeholdersOL is

/-- Placeholders of a select body. -/
def placeholdersS : SelectS → List String
  | .mk rs f none => placeholdersIL rs ++ placeholdersT f
  | .mk rs f (some w) => placeholdersIL rs ++ placeholdersT f ++ placeholders w

/-- Placeholders of a whole query. -/
def placeholdersQ : QueryA → List String
  | .mk sel ob _ => placeholdersS sel ++ placeholdersOL ob

end

/-- The names `p n, p (n+1), …, p (n+k-1)` of `k` consecutively
allocated positional parameters starting at index `n`. -/
def pnames : Nat → Nat → List String
  | _, 0 => []
  | n, k + 1 => ("p" ++ toString n) :: pnames (n + 1) k

/-! ### A deep grammar of the generated predicate surface

The generated modules expose the expression-option builders of
`types.Column` and `query` as composable closures; the grammar below
enumerates exactly those builders, and its `denote` functions interpret
each constructor by the corresponding embedded library function, so
universally quantified claims about "predicates" can be settled by
induction on this grammar. -/

/-- The comparison operators offered by the per-column predicate
methods (`Eq`/`Ne`/`Lt`/`Gt`/`Le`/`Ge`/`Like`/`NotLike`). -/
inductive CmpOp where
  | eq | ne | lt | gt | le | ge | like | notLike
  deriving DecidableEq, Repr

/-- The binary operator each comparison method passes to `Column.Op`. -/
def cmpBin : CmpOp → BinOp
  | .eq => .eq
  | .ne => .ne
  | .lt => .lt
  | .gt => .gt
  | .le => .le
  | .ge => .ge
  | .like => .like
  | .notLike => .notLike

/-- The two n-ary logical combinators (`query.And` / `query.Or`). -/
inductive LogOp where
  | and | or
  deriving DecidableEq, Repr

/-- The binary operator of a logical combinator. -/
def logBin : LogOp → BinOp
  | .and => .and
  | .or => .or

/-- A single column comparison predicate as supplied positionally to
`Select` by callers of the generated modules. -/
structure Pred where
  col : String
  op : CmpOp
  value : Value

/-- Interpretation of a comparison predicate: the generated
`column().Op(...)` call path. -/
def denotePred (p : Pred) : ExprOption :=
  Column.Op ⟨p.col⟩ (cmpBin p.op) p.value

/-- Interpretation of a predicate list. -/
def denotePredList (ps : List Pred) : List ExprOption :=
  ps.map denotePred

/-- Expression options of the generated API: column predicate builders,
the boolean combinators (with at least one operand), and the EXISTS
relationship filter whose nested options are themselves expression
options. -/
inductive EOpt where
  | cmp (col : String) (op : CmpOp) (value : Value)
  | betweenP (col : String) (lo hi : Value)
  | inListP (col : String) (vals : List Value)
  | isNullP (col : String) (neg : Bool)
  | logical (op : LogOp) (first : EOpt) (rest : List EOpt)
  | notP (inner : EOpt)
  | existsP (targetTable : String) (keys : KeyPair) (junctionTable : String)
      (junctionKeys : KeyPair) (opts : List EOpt)

mutual

/-- Interpretation of an expression option by the embedded library
builders. -/
def denoteE : EOpt → ExprOption
  | .cmp col op v => Column.Op ⟨col⟩ (cmpBin op) v
  | .betweenP col lo hi => Column.Between ⟨col⟩ lo hi
  | .inListP col vs => Column.In ⟨col⟩ vs
  | .isNullP col neg =>
    if neg then Column.IsNotNull ⟨col⟩ else Column.IsNull ⟨col⟩
  | .logical op first rest => logicalOp (logBin op) (denoteE first :: denoteEList rest)
  | .notP inner => Not (denoteE inner)
  | .existsP tt k jt jk opts =>
    WhereExists tt k jt jk ((denoteEList opts).map ExprOption.apply)

/-- Interpretation of a list of expression options. -/
def denoteEList : List EOpt → List ExprOption
  | [] => []
  | e :: es => denoteE e :: denoteEList es

end

mutual

/-- The literal values an expression option appends to the parameter
list, in construction order. -/
def valsOf : EOpt → List Value
  | .cmp _ _ v => [v]
  | .betweenP _ lo hi => [lo, hi]
  | .inListP _ vs => vs
  | .isNullP _ _ => []
  | .logical _ first rest => valsOf first ++ valsOfList rest
  | .notP inner => valsOf inner
  | .existsP _ _ _ _ opts => valsOfList opts

/-- Values of a list of expression options, in order. -/
def valsOfList : List EOpt → List Value
  | [] => []
  | e :: es => valsOf e ++ valsOfList es

end

/-- Placeholders referenced by an optional WHERE expression. -/
def placeholdersW : Option Expr → List String
  | none => []
  | some e => placeholders e

/-- The behaviour every expression option of the generated grammar has:
it extends the parameter list by its literal values, leaves every other
state field alone, and the expression it builds references exactly the
consecutively allocated placeholders. -/
def OptSpec (vals : List Value) (o : ExprOption) : Prop :=
  ∀ (s : State) (e0 : Expr),
    (o s e0).1 = { s with Params := s.Params ++ vals } ∧
    placeholders (o s e0).2 = pnames s.Params.length vals.length

/-- The comparison node a column predicate builds when the current
alias is `al` and the parameter list has `n` entries. -/
def predExpr (al : String) (n : Nat) (p : Pred) : Expr :=
  .binary (cmpBin p.op) (.path [al, p.col]) (.param ("p" ++ toString n))

/-- The comparison nodes a run of column predicates builds, with
parameter indices advancing one per predicate. -/
def expectedLeaves (al : String) : Nat → List Pred → List Expr
  | _, [] => []
  | n, p :: ps => predExpr al n p :: expectedLeaves al (n + 1) ps

/-- Number of unary `NOT` nodes along the boolean structure of an
expression. -/
def notCount : Expr → Nat
  | .binary _ l r => notCount l + notCount r
  | .paren e => notCount e
  | .unaryNot e => notCount e + 1
  | _ => 0

/-! ### The code generator (`plate.Generator`)

The generator's validation and its file-producing control flow are
embedded below.  Template rendering and Go-module path resolution are
foreign to the construction logic; the two rendering steps are taken as
function parameters, so the theorems hold for every possible rendering
outcome. -/

/-- A `plate.Relation` descriptor. -/
structure Relation where
  Name : String
  Target : String
  RelFrom : String
  RelTo : String
  ReverseName : String

/-- A `plate.TableSchema`: the database table name together with the
reflected type name of its model (`reflect.TypeOf(schema.Model).Name()`
in `getTypeName`, abstracted to the name itself). -/
structure TableSchema where
  TableName : String
  typeName : String

/-- A `plate.TableConfig`. -/
structure TableConfig where
  Schema : TableSchema
  Relations : List Relation

/-- A `plate.JunctionConfig`. -/
structure JunctionConfig where
  Schema : TableSchema
  Relations : List Relation

/-- A `plate.Schema`: tables plus junction tables. -/
structure GenSchema where
  Tables : List TableConfig
  Junctions : List JunctionConfig

/-- `Generator.getTypeName`. -/
def getTypeName (ts : TableSchema) : String := ts.typeName

/-- The duplicate-table loop of `Generator.validateConfig`, threading
the `seen` set. -/
def validateTables : List String → List TableConfig → Option String
  | _, [] => none
  | seen, tc :: rest =>
    let name := getTypeName tc.Schema
    if name ∈ seen then some ("duplicate table: " ++ name)
    else validateTables (name :: seen) rest

/-- The junction loop of `Generator.validateConfig`: every junction
config must have exactly two relations. -/
def validateJunctions : List JunctionConfig → Option String
  | [] => none
  | jc :: rest =>
    if jc.Relations.length ≠ 2 then
      some ("junction table " ++ getTypeName jc.Schema ++
        " must have exactly 2 relations")
    else validateJunctions rest

/-- `Generator.validateConfig`: duplicate table tags first, then
junction arity. -/
def validateConfig (schema : GenSchema) : Option String :=
  match validateTables [] schema.Tables with
  | some e => some e
  | none => validateJunctions schema.Junctions

/-- The per-table loop of `Generator.GenerateFiles`, rendering one
query-builder file per table config and failing on the first error. -/
def genBuilders (genBuilder : GenSchema → TableConfig → Except String String)
    (toPackageName : String → String) (schema : GenSchema) :
    List TableConfig → Except String (List (String × String))
  | [] => .ok []
  | tc :: rest =>
    let typeName := getTypeName tc.Schema
    let packageName := toPackageName typeName
    match genBuilder schema tc with
    | .error e =>
      .error ("failed to generate query builder for " ++ typeName ++ ": " ++ e)
    | .ok code =>
      match genBuilders genBuilder toPackageName schema rest with
      | .error e => .error e
      | .ok files => .ok ((packageName ++ "/" ++ packageName ++ ".go", code) :: files)

/-- `Generator.GenerateFiles`: validate, then render the tables package
and one builder package per table.  Any failure returns the empty file
map together with the error; rendering is parametrized (see the section
comment). -/
def GenerateFiles (genTables : GenSchema → Except String String)
    (genBuilder : GenSchema → TableConfig → Except String String)
    (toPackageName : String → String) (schema : GenSchema) :
    List (String × String) × Option String :=
  match validateConfig schema with
  | some e => ([], some ("invalid configuration: " ++ e))
  | none =>
    match genTables schema with
    | .error e => ([], some ("failed to generate tables package: " ++ e))
    | .ok tablesCode =>
      match genBuilders genBuilder toPackageName schema schema.Tables with
      | .error e => ([], some e)
      | .ok files => (("tables/tables.go", tablesCode) :: files, none)

/-- The parenthesization `query.Not` applies to the inner expression:
an already-parenthesized expression is kept as is, anything else gets
one layer of parentheses. -/
def ensureParen : Expr → Expr
  | .paren i => .paren i
  | i => .paren i

/-! ### Helper lemmas -/

theorem pnames_append (a : Nat) : ∀ (n b : Nat),
    pnames n (a + b) = pnames n a ++ pnames (n + a) b := by
  induction a with
  | zero => intro n b; simp [pnames]
  | succ a ih =>
    intro n b
    have h1 : a + 1 + b = (a + b) + 1 := by omega
    rw [h1]
    simp only [pnames, ih (n + 1) b, List.cons_append]
    have h2 : n + 1 + a = n + (a + 1) := by omega
    rw [h2]

theorem optSpec_op (c : Column) (op : BinOp) (v : Value) :
    OptSpec [v] (c.Op op v) := by
  intro s e0
  constructor
  · rfl
  · simp [Column.Op, placeholders, pnames]

theorem optSpec_between (c : Column) (lo hi : Value) :
    OptSpec [lo, hi] (c.Between lo hi) := by
  intro s e0
  constructor
  · simp [Column.Between]
  · simp [Column.Between, placeholders, pnames, List.length_append]

theorem in_foldl (vs : List Value) : ∀ (s : State) (acc : List Expr),
    (vs.foldl
      (fun (acc : State × List Expr) value =>
        let i := acc.1.Params.length
        ({ acc.1 with Params := acc.1.Params ++ [value] },
         acc.2 ++ [Expr.param ("p" ++ toString i)]))
      (s, acc)) =
    ({ s with Params := s.Params ++ vs },
     acc ++ (pnames s.Params.length vs.length).map Expr.param) := by
  induction vs with
  | nil => intro s acc; simp [pnames]
  | cons v vs ih =>
    intro s acc
    simp only [List.foldl_cons, ih]
    simp [pnames, List.length_append]

theorem placeholders_param_map (ns : List String) :
    placeholdersL (ns.map Expr.param) = ns := by
  induction ns with
  | nil => simp [placeholdersL]
  | cons n ns ih => simp [placeholdersL, placeholders, ih]

theorem optSpec_in (c : Column) (vs : List Value) :
    OptSpec vs (c.In vs) := by
  intro s e0
  unfold Column.In
  simp only [in_foldl]
  constructor
  · trivial
  · simp [placeholders, placeholders_param_map]

theorem optSpec_isNull (c : Column) : OptSpec [] c.IsNull := by
  intro s e0
  constructor
  · simp [Column.IsNull]
  · simp [Column.IsNull, placeholders, pnames]

theorem optSpec_isNotNull (c : Column) : OptSpec [] c.IsNotNull := by
  intro s e0
  constructor
  · simp [Column.IsNotNull]
  · simp [Column.IsNotNull, placeholders, pnames]

theorem logicalStep_foldl (op : BinOp) {vls : List (List Value)}
    {os : List ExprOption} (h : List.Forall₂ OptSpec vls os) :
    ∀ (s1 : State) (left : Expr),
    (os.foldl (logicalStep op) (s1, left)).1 =
      { s1 with Params := s1.Params ++ vls.flatten } ∧
    placeholders (os.foldl (logicalStep op) (s1, left)).2 =
      placeholders left ++ pnames s1.Params.length vls.flatten.length := by
  induction h with
  | nil => intro s1 left; simp [pnames]
  | cons h1 hrest ih =>
    intro s1 left
    rename_i v o vs os2
    obtain ⟨hs, hp⟩ := h1 s1 Expr.null
    have hstep : logicalStep op (s1, left) o =
        ((o s1 Expr.null).1, .paren (.binary op left (o s1 Expr.null).2)) := rfl
    obtain ⟨ihs, ihp⟩ := ih ((o s1 Expr.null).1)
      (.paren (.binary op left (o s1 Expr.null).2))
    rw [hs] at ihs ihp
    constructor
    · rw [List.foldl_cons, hstep, hs, ihs]
      simp [List.append_assoc]
    · rw [List.foldl_cons, hstep, hs, ihp]
      simp only [placeholders, hp]
      have hlen : ({ s1 with Params := s1.Params ++ v } : State).Params.length =
          s1.Params.length + v.length := by simp
      rw [hlen, List.flatten_cons, List.length_append,
        pnames_append v.length s1.Params.length vs.flatten.length]
      simp [List.append_assoc]

theorem optSpec_logicalOp (op : BinOp) {v1 : List Value} {o1 : ExprOption}
    (h1 : OptSpec v1 o1) {vls : List (List Value)} {os : List ExprOption}
    (h : List.Forall₂ OptSpec vls os) :
    OptSpec (v1 ++ vls.flatten) (logicalOp op (o1 :: os)) := by
  intro s e0
  obtain ⟨hs, hp⟩ := h1 s Expr.null
  have hun : logicalOp op (o1 :: os) s e0 =
      os.foldl (logicalStep op) ((o1 s Expr.null).1, (o1 s Expr.null).2) := rfl
  obtain ⟨fs, fp⟩ := logicalStep_foldl op h ((o1 s Expr.null).1) ((o1 s Expr.null).2)
  rw [hs] at fs fp
  constructor
  · rw [hun, hs, fs]
    simp [List.append_assoc]
  · rw [hun, hs, fp, hp]
    have hlen : ({ s with Params := s.Params ++ v1 } : State).Params.length =
        s.Params.length + v1.length := by simp
    rw [hlen, List.length_append,
      pnames_append v1.length s.Params.length vls.flatten.length]

theorem optSpec_not {v : List Value} {o : ExprOption} (h : OptSpec v o) :
    OptSpec v (Not o) := by
  intro s e0
  obtain ⟨hs, hp⟩ := h s e0
  rcases hoe : o s e0 with ⟨s1, inner⟩
  rw [hoe] at hs hp
  simp only at hs hp
  unfold Not
  rw [hoe]
  constructor
  · cases inner <;> simp [hs]
  · cases inner <;> simp_all [placeholders]

theorem placeholdersS_eq (rs : List SelectItem) (f : TableExpr)
    (w : Option Expr) :
    placeholdersS (.mk rs f w) = placeholdersIL rs ++ placeholdersT f ++ placeholdersW w := by
  cases w <;> simp [placeholdersS, placeholdersW]

theorem apply_spec {v : List Value} {o : ExprOption} (h : OptSpec v o)
    (s : State) (q : QueryA) :
    (ExprOption.apply o s q).1 = { s with Params := s.Params ++ v } ∧
    (ExprOption.apply o s q).2.query.results = q.query.results ∧
    (ExprOption.apply o s q).2.query.fromSource = q.query.fromSource ∧
    (ExprOption.apply o s q).2.orderBy = q.orderBy ∧
    (ExprOption.apply o s q).2.limit = q.limit ∧
    placeholdersW (ExprOption.apply o s q).2.query.whereExpr =
      placeholdersW q.query.whereExpr ++ pnames s.Params.length v.length := by
  obtain ⟨hs, hp⟩ := h s Expr.null
  unfold ExprOption.apply
  rcases hq : q.query.whereExpr with _ | w
  · simp only [hq, Option.getD]
    simp [hs, QueryA.query, SelectS.results, SelectS.fromSource, SelectS.whereExpr,
      QueryA.orderBy, QueryA.limit, placeholdersW, hp]
  · rcases w with _ | _ | _ | _ | _ | _ | _ | _ | _ | _ | _ <;>
      simp only [hq, Option.getD] <;>
      simp [hs, QueryA.query, SelectS.results, SelectS.fromSource, SelectS.whereExpr,
        QueryA.orderBy, QueryA.limit, placeholdersW, placeholders, hp]

theorem applyOpts_spec {vls : List (List Value)} {os : List ExprOption}
    (h : List.Forall₂ OptSpec vls os) :
    ∀ (s : State) (q : QueryA),
    (applyOpts (os.map ExprOption.apply) s q).1 =
      { s with Params := s.Params ++ vls.flatten } ∧
    (applyOpts (os.map ExprOption.apply) s q).2.query.results = q.query.results ∧
    (applyOpts (os.map ExprOption.apply) s q).2.query.fromSource = q.query.fromSource ∧
    (applyOpts (os.map ExprOption.apply) s q).2.orderBy = q.orderBy ∧
    (applyOpts (os.map ExprOption.apply) s q).2.limit = q.limit ∧
    placeholdersW (applyOpts (os.map ExprOption.apply) s q).2.query.whereExpr =
      placeholdersW q.query.whereExpr ++ pnames s.Params.length vls.flatten.length := by
  induction h with
  | nil =>
    intro s q
    simp [applyOpts, pnames]
  | cons h1 hrest ih =>
    intro s q
    rename_i v o vs os2
    obtain ⟨as1, ar1, af1, ao1, al1, aw1⟩ := apply_spec h1 s q
    have hun : applyOpts ((o :: os2).map ExprOption.apply) s q =
        applyOpts (os2.map ExprOption.apply) (ExprOption.apply o s q).1
          (ExprOption.apply o s q).2 := by
      simp [applyOpts]
    obtain ⟨bs, br, bf, bo, bl, bw⟩ :=
      ih ((ExprOption.apply o s q).1) ((ExprOption.apply o s q).2)
    refine ⟨?_, ?_, ?_, ?_, ?_, ?_⟩
    · rw [hun, bs, as1]; simp [List.append_assoc]
    · rw [hun, br, ar1]
    · rw [hun, bf, af1]
    · rw [hun, bo, ao1]
    · rw [hun, bl, al1]
    · rw [hun, bw, aw1, as1]
      have hlen : ({ s with Params := s.Params ++ v } : State).Params.length =
          s.Params.length + v.length := by simp
      rw [hlen, List.flatten_cons, List.length_append,
        pnames_append v.length s.Params.length vs.flatten.length]
      simp [List.append_assoc]

theorem placeholdersQ_eq (qq : QueryA) :
    placeholdersQ qq =
      placeholdersIL qq.query.results ++ placeholdersT qq.query.fromSource ++
        placeholdersW qq.query.whereExpr ++ placeholdersOL qq.orderBy := by
  rcases qq with ⟨⟨rs, f, w⟩, ob, lim⟩
  cases w <;>
    simp [placeholdersQ, placeholdersS, placeholdersW, QueryA.query, QueryA.orderBy,
      SelectS.results, SelectS.fromSource, SelectS.whereExpr, List.append_assoc]

theorem optSpec_whereExists (tt : String) (k : KeyPair) (jt : String)
    (jk : KeyPair) {vls : List (List Value)} {os : List ExprOption}
    (h : List.Forall₂ OptSpec vls os) :
    OptSpec vls.flatten (WhereExists tt k jt jk (os.map ExprOption.apply)) := by
  intro s e0
  by_cases hjt : jt = ""
  · subst hjt
    obtain ⟨cs, cr, cf, co, cl, cw⟩ := applyOpts_spec h
      { Tables := addTable [] tt, Params := s.Params,
        RelationshipPath := [tt], SubqueryColumns := [] }
      (.mk (.mk [.exprItem (.intLit "1")] (.tableName tt none)
        (some (.binary .eq (.path [tt, k.To]) (.path [s.CurrentAlias, k.From]))))
        [] none)
    have hun : WhereExists tt k "" jk (os.map ExprOption.apply) s e0 =
        ({ s with Params :=
            (applyOpts (os.map ExprOption.apply)
              { Tables := addTable [] tt, Params := s.Params,
                RelationshipPath := [tt], SubqueryColumns := [] }
              (.mk (.mk [.exprItem (.intLit "1")] (.tableName tt none)
                (some (.binary .eq (.path [tt, k.To])
                  (.path [s.CurrentAlias, k.From])))) [] none)).1.Params },
         .existsQ
            (applyOpts (os.map ExprOption.apply)
              { Tables := addTable [] tt, Params := s.Params,
                RelationshipPath := [tt], SubqueryColumns := [] }
              (.mk (.mk [.exprItem (.intLit "1")] (.tableName tt none)
                (some (.binary .eq (.path [tt, k.To])
                  (.path [s.CurrentAlias, k.From])))) [] none)).2) := by
      simp [WhereExists]
    rw [hun]
    constructor
    · rw [cs]
    · simp only [placeholders, placeholdersQ_eq, cr, cf, co, cl, cw]
      simp [placeholdersIL, placeholdersI, placeholders, placeholdersT,
        placeholdersOL, placeholdersW, QueryA.query, QueryA.orderBy,
        SelectS.results, SelectS.fromSource, SelectS.whereExpr]
  · obtain ⟨cs, cr, cf, co, cl, cw⟩ := applyOpts_spec h
      { Tables := addTable [] tt, Params := s.Params,
        RelationshipPath := [tt], SubqueryColumns := [] }
      (.mk (.mk [.exprItem (.intLit "1")]
        (.joinE .innerJoin (.tableName tt none) (.tableName jt none)
          (.binary .eq (.path [tt, jk.To]) (.path [jt, jk.From])))
        (some (.binary .eq (.path [jt, k.To]) (.path [s.CurrentAlias, k.From]))))
        [] none)
    have hun : WhereExists tt k jt jk (os.map ExprOption.apply) s e0 =
        ({ s with Params :=
            (applyOpts (os.map ExprOption.apply)
              { Tables := addTable [] tt, Params := s.Params,
                RelationshipPath := [tt], SubqueryColumns := [] }
              (.mk (.mk [.exprItem (.intLit "1")]
                (.joinE .innerJoin (.tableName tt none) (.tableName jt none)
                  (.binary .eq (.path [tt, jk.To]) (.path [jt, jk.From])))
                (some (.binary .eq (.path [jt, k.To])
                  (.path [s.CurrentAlias, k.From])))) [] none)).1.Params },
         .existsQ
            (applyOpts (os.map ExprOption.apply)
              { Tables := addTable [] tt, Params := s.Params,
                RelationshipPath := [tt], SubqueryColumns := [] }
              (.mk (.mk [.exprItem (.intLit "1")]
                (.joinE .innerJoin (.tableName tt none) (.tableName jt none)
                  (.binary .eq (.path [tt, jk.To]) (.path [jt, jk.From])))
                (some (.binary .eq (.path [jt, k.To])
                  (.path [s.CurrentAlias, k.From])))) [] none)).2) := by
      simp [WhereExists, hjt, QueryA.query, QueryA.orderBy, QueryA.limit,
        SelectS.results, SelectS.fromSource, SelectS.whereExpr]
    rw [hun]
    constructor
    · rw [cs]
    · simp only [placeholders, placeholdersQ_eq, cr, cf, co, cl, cw]
      simp [placeholdersIL, placeholdersI, placeholders, placeholdersT,
        placeholdersOL, placeholdersW, QueryA.query, QueryA.orderBy,
        SelectS.results, SelectS.fromSource, SelectS.whereExpr]

theorem valsOfList_eq (es : List EOpt) :
    valsOfList es = (es.map valsOf).flatten := by
  induction es with
  | nil => simp [valsOfList]
  | cons e es ih => simp [valsOfList, ih]

mutual

theorem denoteE_optSpec : (e : EOpt) → OptSpec (valsOf e) (denoteE e)
  | .cmp col op v => by
    simpa [denoteE, valsOf] using optSpec_op ⟨col⟩ (cmpBin op) v
  | .betweenP col lo hi => by
    simpa [denoteE, valsOf] using optSpec_between ⟨col⟩ lo hi
  | .inListP col vs => by
    simpa [denoteE, valsOf] using optSpec_in ⟨col⟩ vs
  | .isNullP col neg => by
    cases neg
    · simpa [denoteE, valsOf] using optSpec_isNull ⟨col⟩
    · simpa [denoteE, valsOf] using optSpec_isNotNull ⟨col⟩
  | .logical op first rest => by
    have h1 := denoteE_optSpec first
    have h2 := denoteEList_optSpec rest
    simpa [denoteE, valsOf, valsOfList_eq] using
      optSpec_logicalOp (logBin op) h1 h2
  | .notP inner => by
    have h1 := denoteE_optSpec inner
    simpa [denoteE, valsOf] using optSpec_not h1
  | .existsP tt k jt jk opts => by
    have h2 := denoteEList_optSpec opts
    simpa [denoteE, valsOf, valsOfList_eq] using
      optSpec_whereExists tt k jt jk h2

theorem denoteEList_optSpec :
    (es : List EOpt) → List.Forall₂ OptSpec (es.map valsOf) (denoteEList es)
  | [] => by simp [denoteEList]
  | e :: es => by
    simp only [denoteEList, List.map_cons]
    exact List.Forall₂.cons (denoteE_optSpec e) (denoteEList_optSpec es)

end

theorem intercalate_singleton (x : String) : String.intercalate "_" [x] = x := by
  simp [String.intercalate, String.intercalate.go]

theorem currentAliasOf_pair (b n : String) : currentAliasOf [b, n] = n := by
  simp [currentAliasOf, intercalate_singleton]

theorem directJoin_run (rn tt : String) (keys : KeyPair) (jt : JoinOp)
    (s : State) (q : QueryA) :
    DirectJoin rn tt keys jt [] s q =
      ({ s with Tables :=
          addTable s.Tables (currentAliasOf (s.RelationshipPath ++ [rn])) },
       .mk (.mk q.query.results
         (.joinE jt q.query.fromSource
           (.tableName tt (some (currentAliasOf (s.RelationshipPath ++ [rn]))))
           (.binary .eq (.path [s.CurrentAlias, keys.From])
             (.path [currentAliasOf (s.RelationshipPath ++ [rn]), keys.To])))
         q.query.whereExpr) q.orderBy q.limit) := by
  rfl

theorem countAnd_pred (al : String) (n : Nat) (p : Pred) :
    countAnd (predExpr al n p) = 0 := by
  rcases p with ⟨col, op, v⟩
  cases op <;> simp [predExpr, cmpBin, countAnd]

theorem andLeaves_pred (al : String) (n : Nat) (p : Pred) :
    andLeaves (predExpr al n p) = [predExpr al n p] := by
  rcases p with ⟨col, op, v⟩
  cases op <;> simp [predExpr, cmpBin, andLeaves]

theorem predList_fold (ps : List Pred) :
    ∀ (s : State) (rs : List SelectItem) (f : TableExpr) (bop : BinOp)
      (wl wr : Expr) (ob : List OrderByItem) (lim : Option String),
    (applyOpts ((denotePredList ps).map ExprOption.apply) s
        (.mk (.mk rs f (some (.binary bop wl wr))) ob lim)).1 =
      { s with Params := s.Params ++ ps.map Pred.value } ∧
    ∃ w', (applyOpts ((denotePredList ps).map ExprOption.apply) s
        (.mk (.mk rs f (some (.binary bop wl wr))) ob lim)).2 =
      .mk (.mk rs f (some w')) ob lim ∧
      countAnd w' = countAnd (.binary bop wl wr) + ps.length ∧
      andLeaves w' = andLeaves (.binary bop wl wr) ++
        expectedLeaves s.CurrentAlias s.Params.length ps := by
  induction ps with
  | nil =>
    intro s rs f bop wl wr ob lim
    refine ⟨by simp [denotePredList, applyOpts], .binary bop wl wr, ?_, ?_, ?_⟩ <;>
      simp [denotePredList, applyOpts, expectedLeaves]
  | cons p ps ih =>
    intro s rs f bop wl wr ob lim
    have happ : ExprOption.apply (denotePred p) s
        (.mk (.mk rs f (some (.binary bop wl wr))) ob lim) =
        ({ s with Params := s.Params ++ [p.value] },
         .mk (.mk rs f (some (.binary .and (.binary bop wl wr)
           (predExpr s.CurrentAlias s.Params.length p)))) ob lim) := rfl
    have hstep : applyOpts ((denotePredList (p :: ps)).map ExprOption.apply) s
        (.mk (.mk rs f (some (.binary bop wl wr))) ob lim) =
        applyOpts ((denotePredList ps).map ExprOption.apply)
          { s with Params := s.Params ++ [p.value] }
          (.mk (.mk rs f (some (.binary .and (.binary bop wl wr)
            (predExpr s.CurrentAlias s.Params.length p)))) ob lim) := by
      simp only [denotePredList, List.map_cons, applyOpts, List.foldl_cons, happ]
    obtain ⟨ihs, w', ihq, ihc, ihl⟩ := ih { s with Params := s.Params ++ [p.value] }
      rs f .and (.binary bop wl wr) (predExpr s.CurrentAlias s.Params.length p) ob lim
    refine ⟨?_, w', ?_, ?_, ?_⟩
    · rw [hstep, ihs]
      simp
    · rw [hstep, ihq]
    · rw [ihc]
      simp [countAnd, countAnd_pred]
      omega
    · rw [ihl]
      simp only [andLeaves, andLeaves_pred]
      have hca : ({ s with Params := s.Params ++ [p.value] } : State).CurrentAlias =
          s.CurrentAlias := rfl
      have hln : ({ s with Params := s.Params ++ [p.value] } : State).Params.length =
          s.Params.length + 1 := by simp
      rw [hca, hln]
      simp [expectedLeaves, List.append_assoc]

/-! ### Claim theorems -/

/-- C1: for the generated User module (table `user`, string column
`name`), `Select` applied to the single predicate `Name.Eq "John"`
returns exactly `SELECT user.* FROM user WHERE user.name = @p0` with
parameter list `["John"]`. -/
theorem select_user_name_eq_john :
    Select "user" [(user.Name.Eq "John").apply] =
      ("SELECT user.* FROM user WHERE user.name = @p0", ["John"]) := by
  rfl

/-- C10: `And` and `Or` applied to a single operand behave exactly as
the operand itself — the pairwise fold of `logicalOp` is the identity
on one element, adding no parentheses and no connective. -/
theorem logicalOp_singleton_identity (e : ExprOption) (s : State) (e0 : Expr) :
    And [e] s e0 = e s Expr.null ∧ Or [e] s e0 = e s Expr.null := by
  constructor <;> rfl

/-- C7: `WithRelationship` appends the relationship name to the path,
registers the derived alias, invokes the scoped function with that
alias, and afterwards restores the relationship path to exactly its
previous value — for every state and every scoped function. -/
theorem withRelationship_restores_path (s : State) (name : String)
    (fn : String → State → State) :
    (s.WithRelationship name fn).RelationshipPath = s.RelationshipPath ∧
    s.WithRelationship name fn =
      { fn (currentAliasOf (s.RelationshipPath ++ [name]))
          { s with
            RelationshipPath := s.RelationshipPath ++ [name]
            Tables := addTable s.Tables
              (currentAliasOf (s.RelationshipPath ++ [name])) } with
        RelationshipPath := s.RelationshipPath } := by
  constructor <;> rfl

/-- C4: `Not` builds exactly one unary NOT node around the inner
expression, re-using the inner parentheses when present and inserting
one layer otherwise; in particular
`Not (Or [Name.Eq "Admin", Name.Eq "Root"])` builds a single NOT over a
single parenthesized OR. -/
theorem not_single_negation :
    (∀ (o : ExprOption) (s : State) (e0 : Expr),
      Not o s e0 = ((o s e0).1, .unaryNot (ensureParen (o s e0).2)) ∧
      notCount (.unaryNot (ensureParen (o s e0).2)) = notCount (o s e0).2 + 1) ∧
    (selectQ "user"
        [(Not (Or [user.Name.Eq "Admin", user.Name.Eq "Root"])).apply]).1.query.whereExpr =
      some (.unaryNot (.paren (.binary .or
        (.binary .eq (.path ["user", "name"]) (.param "p0"))
        (.binary .eq (.path ["user", "name"]) (.param "p1"))))) ∧
    notCount (.unaryNot (.paren (.binary .or
        (.binary .eq (.path ["user", "name"]) (.param "p0"))
        (.binary .eq (.path ["user", "name"]) (.param "p1"))))) = 1 := by
  refine ⟨fun o s e0 => ?_, by rfl, by rfl⟩
  constructor
  · show Not o s e0 = _
    unfold Not
    rcases hoe : o s e0 with ⟨s1, inner⟩
    cases inner <;> simp [ensureParen]
  · cases hi : (o s e0).2 <;> simp [ensureParen, notCount]

/-- C5 (counterexample): the many-to-many join of the generated
Post/Tag modules does not serialize to the claimed alias-free FROM
chain and `tag.name` WHERE clause — the junction and target tables are
aliased. -/
theorem junction_join_sql_counterexample :
    Select "post" [post.Tags [(tag.Name.Eq "Go").apply]] ≠
      ("SELECT post.* FROM post LEFT OUTER JOIN post_tag ON post.id = post_tag.post_id LEFT OUTER JOIN tag ON post_tag.tag_id = tag.id WHERE tag.name = @p0",
       ["Go"]) := by
  decide

/-- C5 (amended): the many-to-many join produces exactly two chained
join nodes — base to junction, then junction to target — with the
junction aliased `post_post_tag` and the target aliased `tags`, giving
the FROM chain
`post LEFT OUTER JOIN post_tag AS post_post_tag ON post.id = post_post_tag.post_id LEFT OUTER JOIN tag AS tags ON post_post_tag.tag_id = tags.id`
and WHERE clause `tags.name = @p0`. -/
theorem junction_join_sql_actual :
    Select "post" [post.Tags [(tag.Name.Eq "Go").apply]] =
      ("SELECT post.* FROM post LEFT OUTER JOIN post_tag AS post_post_tag ON post.id = post_post_tag.post_id LEFT OUTER JOIN tag AS tags ON post_post_tag.tag_id = tags.id WHERE tags.name = @p0",
       ["Go"]) ∧
    (selectQ "post" [post.Tags [(tag.Name.Eq "Go").apply]]).1.query.fromSource =
      .joinE .leftOuterJoin
        (.joinE .leftOuterJoin (.tableName "post" none)
          (.tableName "post_tag" (some "post_post_tag"))
          (.binary .eq (.path ["post", "id"]) (.path ["post_post_tag", "post_id"])))
        (.tableName "tag" (some "tags"))
        (.binary .eq (.path ["post_post_tag", "tag_id"]) (.path ["tags", "id"])) := by
  constructor <;> rfl

/-- C8: `WithInnerJoinOption` never touches the state; on a FROM source
that is a bare table it leaves the query completely unchanged (silent
no-op), and on a FROM source whose outermost node is a join over a
table name — the shape every engine-built FROM clause has, where the
outermost join is the most recently added — it flips exactly that
join's kind to INNER and changes nothing else. -/
theorem withInnerJoin_flips_last_join (s : State) (q : QueryA) :
    (WithInnerJoinOption s q).1 = s ∧
    (∀ n a, q.query.fromSource = .tableName n a →
      (WithInnerJoinOption s q).2 = q) ∧
    (∀ op l rn ra cond,
      q.query.fromSource = .joinE op l (.tableName rn ra) cond →
      (WithInnerJoinOption s q).2 =
        .mk (.mk q.query.results (.joinE .innerJoin l (.tableName rn ra) cond)
          q.query.whereExpr) q.orderBy q.limit) := by
  refine ⟨?_, ?_, ?_⟩
  · unfold WithInnerJoinOption
    split <;> rfl
  · intro n a h
    unfold WithInnerJoinOption
    rw [h]
    simp [hasJoin]
  · intro op l rn ra cond h
    unfold WithInnerJoinOption
    rw [h]
    simp [hasJoin, setLastJoinInner]

/-- C6 (counterexample): applying the same relationship join option
twice in one query joins the target table twice under the same derived
alias, so two FROM-clause members share an alias. -/
theorem alias_collision_counterexample :
    ¬ (fromAliases
        (selectQ "post" [post.Author [], post.Author []]).1.query.fromSource).Nodup := by
  decide

/-- C6 (amended): joining the same target table twice through two
relationship join options whose relationship names are distinct — and
distinct from the base table name — yields two distinct, non-colliding
aliases, each appearing in its own join condition, and no two
FROM-clause members share an alias. -/
theorem distinct_relationships_distinct_aliases (base n1 n2 target : String)
    (k1 k2 : KeyPair) (j1 j2 : JoinOp)
    (h1 : n1 ≠ n2) (h2 : n1 ≠ base) (h3 : n2 ≠ base) :
    (selectQ base [DirectJoin n1 target k1 j1 [],
      DirectJoin n2 target k2 j2 []]).1.query.fromSource =
      .joinE j2
        (.joinE j1 (.tableName base none) (.tableName target (some n1))
          (.binary .eq (.path [base, k1.From]) (.path [n1, k1.To])))
        (.tableName target (some n2))
        (.binary .eq (.path [base, k2.From]) (.path [n2, k2.To])) ∧
    (fromAliases
      (selectQ base [DirectJoin n1 target k1 j1 [],
        DirectJoin n2 target k2 j2 []]).1.query.fromSource).Nodup := by
  have hfrom :
      (selectQ base [DirectJoin n1 target k1 j1 [],
        DirectJoin n2 target k2 j2 []]).1.query.fromSource =
      .joinE j2
        (.joinE j1 (.tableName base none) (.tableName target (some n1))
          (.binary .eq (.path [base, k1.From]) (.path [n1, k1.To])))
        (.tableName target (some n2))
        (.binary .eq (.path [base, k2.From]) (.path [n2, k2.To])) := by
    simp only [selectQ, applyOpts, List.foldl_cons, List.foldl_nil,
      directJoin_run, State.CurrentAlias, currentAliasOf_pair]
    simp [QueryA.query, SelectS.fromSource, QueryA.orderBy, QueryA.limit,
      SelectS.results, SelectS.whereExpr, currentAliasOf, intercalate_singleton]
  refine ⟨hfrom, ?_⟩
  rw [hfrom]
  simp [fromAliases, h1, Ne.symm h2, Ne.symm h3]

/-- C2: for every run of `N ≥ 1` column predicates passed positionally
to `Select`, the WHERE clause carries exactly `N − 1` AND connectives
and its conjuncts are the predicates' comparison nodes in call order. -/
theorem select_implicit_and_shape (t : String) (p : Pred) (ps : List Pred) :
    ∃ w,
      (selectQ t ((denotePredList (p :: ps)).map
        ExprOption.apply)).1.query.whereExpr = some w ∧
      countAnd w = ps.length ∧
      andLeaves w = expectedLeaves t 0 (p :: ps) := by
  have h0 : ExprOption.apply (denotePred p)
      ⟨addTable [] t, [], [t], []⟩
      (.mk (.mk [.dotStar (.path [t])] (.tableName t none) none) [] none) =
      (⟨addTable [] t, [p.value], [t], []⟩,
       .mk (.mk [.dotStar (.path [t])] (.tableName t none)
         (some (.binary (cmpBin p.op) (.path [t, p.col])
           (.param ("p" ++ toString 0))))) [] none) := rfl
  obtain ⟨hs, w', hq, hc, hl⟩ := predList_fold ps
    ⟨addTable [] t, [p.value], [t], []⟩
    [.dotStar (.path [t])] (.tableName t none) (cmpBin p.op)
    (.path [t, p.col]) (.param ("p" ++ toString 0)) [] none
  have hsel : (selectQ t ((denotePredList (p :: ps)).map
      ExprOption.apply)).1.query.whereExpr =
      (applyOpts ((denotePredList (p :: ps)).map ExprOption.apply)
        ⟨addTable [] t, [], [t], []⟩
        (.mk (.mk [.dotStar (.path [t])] (.tableName t none) none)
          [] none)).2.query.whereExpr := rfl
  have hstep : applyOpts ((denotePredList (p :: ps)).map ExprOption.apply)
      ⟨addTable [] t, [], [t], []⟩
      (.mk (.mk [.dotStar (.path [t])] (.tableName t none) none) [] none) =
      applyOpts ((denotePredList ps).map ExprOption.apply)
        ⟨addTable [] t, [p.value], [t], []⟩
        (.mk (.mk [.dotStar (.path [t])] (.tableName t none)
          (some (.binary (cmpBin p.op) (.path [t, p.col])
            (.param ("p" ++ toString 0))))) [] none) := by
    simp only [denotePredList, List.map_cons, applyOpts, List.foldl_cons, h0]
  refine ⟨w', ?_, ?_, ?_⟩
  · rw [hsel, hstep, hq]
    rfl
  · have hz : countAnd (Expr.binary (cmpBin p.op) (.path [t, p.col])
        (.param ("p" ++ toString 0))) = 0 := countAnd_pred t 0 p
    rw [hc, hz]
    omega
  · have hone : andLeaves (Expr.binary (cmpBin p.op) (.path [t, p.col])
        (.param ("p" ++ toString 0))) =
        [Expr.binary (cmpBin p.op) (.path [t, p.col])
          (.param ("p" ++ toString 0))] := andLeaves_pred t 0 p
    rw [hl, hone]
    have hca : (⟨addTable [] t, [p.value], [t], []⟩ : State).CurrentAlias = t := rfl
    have hln : (⟨addTable [] t, [p.value], [t], []⟩ : State).Params.length = 1 := rfl
    rw [hca, hln]
    show (Expr.binary (cmpBin p.op) (.path [t, p.col])
      (.param ("p" ++ toString 0))) :: expectedLeaves t 1 ps =
      expectedLeaves t 0 (p :: ps)
    simp [expectedLeaves, predExpr]

/-- C3: across a whole `Select` call over any combination of the
predicate builders (comparisons, between, in-list, null checks,
AND/OR/NOT composition and EXISTS subquery filters), every builder
appends its literal values to the parameter list in construction order,
placeholder names are assigned from the list index at append time —
subquery composition sharing and merging the parent's parameter list —
so the returned parameter list is exactly the values in construction
order and the placeholders referenced by the query are globally
sequential: `p0, p1, …`. -/
theorem select_params_sequential (t : String) (opts : List EOpt) :
    (selectQ t ((denoteEList opts).map ExprOption.apply)).2.Params =
      valsOfList opts ∧
    placeholdersQ (selectQ t ((denoteEList opts).map ExprOption.apply)).1 =
      pnames 0 (valsOfList opts).length := by
  obtain ⟨cs, cr, cf, co, cl, cw⟩ := applyOpts_spec (denoteEList_optSpec opts)
    ⟨addTable [] t, [], [t], []⟩
    (.mk (.mk [.dotStar (.path [t])] (.tableName t none) none) [] none)
  constructor
  · have h2 : (selectQ t ((denoteEList opts).map ExprOption.apply)).2 =
        (applyOpts ((denoteEList opts).map ExprOption.apply)
          ⟨addTable [] t, [], [t], []⟩
          (.mk (.mk [.dotStar (.path [t])] (.tableName t none) none)
            [] none)).1 := rfl
    rw [h2, cs, valsOfList_eq]
    simp
  · have h1 : (selectQ t ((denoteEList opts).map ExprOption.apply)).1 =
        .mk (.mk
          ((applyOpts ((denoteEList opts).map ExprOption.apply)
            ⟨addTable [] t, [], [t], []⟩
            (.mk (.mk [.dotStar (.path [t])] (.tableName t none) none)
              [] none)).2.query.results ++
           ((applyOpts ((denoteEList opts).map ExprOption.apply)
            ⟨addTable [] t, [], [t], []⟩
            (.mk (.mk [.dotStar (.path [t])] (.tableName t none) none)
              [] none)).1.SubqueryColumns.map
              (fun col => .aliasItem col.subquery col.alias_)))
          (applyOpts ((denoteEList opts).map ExprOption.apply)
            ⟨addTable [] t, [], [t], []⟩
            (.mk (.mk [.dotStar (.path [t])] (.tableName t none) none)
              [] none)).2.query.fromSource
          (applyOpts ((denoteEList opts).map ExprOption.apply)
            ⟨addTable [] t, [], [t], []⟩
            (.mk (.mk [.dotStar (.path [t])] (.tableName t none) none)
              [] none)).2.query.whereExpr)
          (applyOpts ((denoteEList opts).map ExprOption.apply)
            ⟨addTable [] t, [], [t], []⟩
            (.mk (.mk [.dotStar (.path [t])] (.tableName t none) none)
              [] none)).2.orderBy
          (applyOpts ((denoteEList opts).map ExprOption.apply)
            ⟨addTable [] t, [], [t], []⟩
            (.mk (.mk [.dotStar (.path [t])] (.tableName t none) none)
              [] none)).2.limit := rfl
    rw [h1, cs, cr, cf, co, cl]
    simp only [placeholdersQ, placeholdersS_eq, cw]
    rw [valsOfList_eq]
    simp [placeholdersIL, placeholdersI, placeholders, placeholdersT,
      placeholdersOL, placeholdersW, QueryA.query, QueryA.orderBy,
      SelectS.results, SelectS.fromSource, SelectS.whereExpr]

theorem validateTables_isSome :
    ∀ (tcs : List TableConfig) (seen : List String),
    (¬ (tcs.map (fun tc => getTypeName tc.Schema)).Nodup ∨
      ∃ n ∈ seen, n ∈ tcs.map (fun tc => getTypeName tc.Schema)) →
    (validateTables seen tcs).isSome := by
  intro tcs
  induction tcs with
  | nil =>
    intro seen h
    rcases h with h | ⟨n, _, hmem⟩
    · simp at h
    · simp at hmem
  | cons tc rest ih =>
    intro seen h
    by_cases hm : getTypeName tc.Schema ∈ seen
    · simp [validateTables, hm]
    · have hstep : validateTables seen (tc :: rest) =
          validateTables (getTypeName tc.Schema :: seen) rest := by
        simp [validateTables, hm]
      rw [hstep]
      apply ih
      rcases h with h | ⟨n, hn, hmem⟩
      · rw [List.map_cons, List.nodup_cons] at h
        by_cases hin : getTypeName tc.Schema ∈ rest.map (fun tc => getTypeName tc.Schema)
        · exact Or.inr ⟨getTypeName tc.Schema, by simp, hin⟩
        · exact Or.inl (fun hn2 => h ⟨hin, hn2⟩)
      · rw [List.map_cons] at hmem
        rcases List.mem_cons.mp hmem with heq | hm2
        · exact absurd (heq ▸ hn) hm
        · exact Or.inr ⟨n, List.mem_cons_of_mem _ hn, hm2⟩

theorem validateJunctions_isSome :
    ∀ (jcs : List JunctionConfig),
    (∃ jc ∈ jcs, jc.Relations.length ≠ 2) →
    (validateJunctions jcs).isSome := by
  intro jcs
  induction jcs with
  | nil => rintro ⟨jc, h, _⟩; simp at h
  | cons jc rest ih =>
    rintro ⟨jc2, hmem, hlen⟩
    by_cases h2 : jc.Relations.length = 2
    · have hstep : validateJunctions (jc :: rest) = validateJunctions rest := by
        simp [validateJunctions, h2]
      rw [hstep]
      apply ih
      rcases List.mem_cons.mp hmem with rfl | hm
      · exact absurd h2 hlen
      · exact ⟨jc2, hm, hlen⟩
    · simp [validateJunctions, h2]

theorem validateConfig_isSome (schema : GenSchema)
    (h : ¬ (schema.Tables.map (fun tc => getTypeName tc.Schema)).Nodup ∨
      ∃ jc ∈ schema.Junctions, jc.Relations.length ≠ 2) :
    (validateConfig schema).isSome := by
  unfold validateConfig
  rcases hv : validateTables [] schema.Tables with _ | e
  · rcases h with h | h
    · have hsome := validateTables_isSome schema.Tables [] (Or.inl h)
      rw [hv] at hsome
      simp at hsome
    · simpa using validateJunctions_isSome schema.Junctions h
  · simp

/-- C9: generator validation is fatal and precedes all output — for a
schema with two table configs sharing a table tag, or with a junction
config whose relation list does not have exactly two elements,
`GenerateFiles` returns a validation error and the empty file set,
whatever the template-rendering steps would have produced. -/
theorem generateFiles_validation_fatal
    (genTables : GenSchema → Except String String)
    (genBuilder : GenSchema → TableConfig → Except String String)
    (toPackageName : String → String) (schema : GenSchema)
    (h : ¬ (schema.Tables.map (fun tc => getTypeName tc.Schema)).Nodup ∨
      ∃ jc ∈ schema.Junctions, jc.Relations.length ≠ 2) :
    (GenerateFiles genTables genBuilder toPackageName schema).1 = [] ∧
    (GenerateFiles genTables genBuilder toPackageName schema).2.isSome := by
  have hv := validateConfig_isSome schema h
  unfold GenerateFiles
  rcases hvc : validateConfig schema with _ | e
  · rw [hvc] at hv
    simp at hv
  · simp

/-- Witness for C9: two table configs both tagged `User` make
`GenerateFiles` fail validation and produce zero files. -/
theorem generateFiles_validation_fatal_witness :
    (GenerateFiles (fun _ => .ok "") (fun _ _ => .ok "") id
      ⟨[⟨⟨"user", "User"⟩, []⟩, ⟨⟨"user", "User"⟩, []⟩], []⟩).1 = [] ∧
    (GenerateFiles (fun _ => .ok "") (fun _ _ => .ok "") id
      ⟨[⟨⟨"user", "User"⟩, []⟩, ⟨⟨"user", "User"⟩, []⟩], []⟩).2.isSome :=
  generateFiles_validation_fatal _ _ _ _ (Or.inl (by decide))

/-- Witness for C8: flipping the join kind of a concrete
`post LEFT OUTER JOIN user AS author` FROM source yields the same query
with an INNER join. -/
theorem withInnerJoin_flips_last_join_witness :
    (WithInnerJoinOption ⟨["post"], [], ["post"], []⟩
      (.mk (.mk [] (.joinE .leftOuterJoin (.tableName "post" none)
        (.tableName "user" (some "author")) Expr.null) none) [] none)).2 =
      .mk (.mk [] (.joinE .innerJoin (.tableName "post" none)
        (.tableName "user" (some "author")) Expr.null) none) [] none :=
  (withInnerJoin_flips_last_join _ _).2.2 _ _ _ _ _ rfl

/-- Witness for C6 (amended): joining `user` as both `author` and
`editor` from `post` yields the two distinct aliases, each in its own
join condition, with no collision. -/
theorem distinct_relationships_distinct_aliases_witness :
    (selectQ "post" [DirectJoin "author" "user" ⟨"user_id", "id"⟩ .innerJoin [],
      DirectJoin "editor" "user" ⟨"editor_id", "id"⟩ .innerJoin
        []]).1.query.fromSource =
      .joinE .innerJoin
        (.joinE .innerJoin (.tableName "post" none)
          (.tableName "user" (some "author"))
          (.binary .eq (.path ["post", "user_id"]) (.path ["author", "id"])))
        (.tableName "user" (some "editor"))
        (.binary .eq (.path ["post", "editor_id"]) (.path ["editor", "id"])) ∧
    (fromAliases
      (selectQ "post" [DirectJoin "author" "user" ⟨"user_id", "id"⟩ .innerJoin [],
        DirectJoin "editor" "user" ⟨"editor_id", "id"⟩ .innerJoin
          []]).1.query.fromSource).Nodup :=
  distinct_relationships_distinct_aliases "post" "author" "editor" "user"
    ⟨"user_id", "id"⟩ ⟨"editor_id", "id"⟩ .innerJoin .innerJoin
    (by decide) (by decide) (by decide)

end Plate
